import Mathlib

/-
Verification development for the Content Structure Inference Engine of the
AI-powered no-code scraper (source: javascript_20250926_aded33.js).

Modelling conventions:
 - JS strings are `List Char`; `String.trim` is modelled on the ASCII
   whitespace characters that occur in the documents considered.
 - The parsed HTML document (cheerio's DOM) is a first-child/next-sibling
   tree `Dom`; `cheerio.load` wraps a fragment in html/head/body, modelled
   by `loadFragment`.  `$('*')` traverses elements in document order
   (pre-order), which is `Dom.elems` / `Dom.scan`.
 - The compromise.js tagger is an external collaborator; its four queries
   used by the source (`has('#Money')`, `has('#Noun')`, `match('#Email').found`,
   `match('#PhoneNumber').found`) are an abstract input `NlpDoc`.
 - `JSON.parse` is a platform primitive; it is an abstract parameter
   `jparse : List Char → Option Json`.
 - The call `this.findBestContactSelector(...)` at line 126 has no
   definition anywhere in the repository; in JS it throws a TypeError.
   This is modelled by `Except.error Err.undefinedContactSelector`.
 - `analyzeContentStructure` returns, as in the dynamically typed source,
   either the raw parsed JSON, JS `null`, or the fallback result
   (`AnalysisResult`).
-/

namespace Scrape

/-- JS whitespace test used by String.trim (ASCII subset). -/
def isWs (c : Char) : Bool := c == ' ' || c == '\n' || c == '\t' || c == '\r'

/-- String.prototype.trim: drop whitespace from both ends. -/
def trim (l : List Char) : List Char :=
  ((l.dropWhile isWs).reverse.dropWhile isWs).reverse

/-- Bool substring test (JS String.prototype.includes / regex literal search). -/
def containsSub (pat t : List Char) : Bool := decide (pat <:+: t)

/-- Parsed DOM, first-child/next-sibling encoding.  `elem tag id class children sibling`. -/
inductive Dom where
  | nil : Dom
  | text : List Char → Dom → Dom
  | elem : List Char → Option (List Char) → Option (List Char) → Dom → Dom → Dom
deriving DecidableEq

/-- cheerio `.text()`: concatenated text of all text nodes of a forest. -/
def Dom.textOf : Dom → List Char
  | .nil => []
  | .text s rest => s ++ Dom.textOf rest
  | .elem _ _ _ ch rest => Dom.textOf ch ++ Dom.textOf rest

/-- One element as seen by a selector or by the DOM scan: tag, id, raw class
attribute, and the forest of its children. -/
structure ElemView where
  tag : List Char
  id : Option (List Char)
  classes : Option (List Char)
  children : Dom
deriving DecidableEq

/-- All elements of a forest in document order (pre-order), as `$('*')` yields them. -/
def Dom.elems : Dom → List ElemView
  | .nil => []
  | .text _ rest => Dom.elems rest
  | .elem t i c ch rest => ⟨t, i, c, ch⟩ :: (Dom.elems ch ++ Dom.elems rest)

/-- cheerio.load wraps a fragment in html/head/body. -/
def loadFragment (body : Dom) : Dom :=
  Dom.elem "html".data none none
    (Dom.elem "head".data none none Dom.nil
      (Dom.elem "body".data none none body Dom.nil))
    Dom.nil

/-- Candidate element pushed by intelligentSelectorDiscovery's `$('*').each` loop:
`{tag: elem.name, text: text.substring(0,200), classes: attr('class'),
id: attr('id'), context: parent tagName}`. -/
structure Candidate where
  tag : List Char
  text : List Char
  classes : Option (List Char)
  id : Option (List Char)
  context : Option (List Char)
deriving DecidableEq

/-- The candidate's truncated text: `$elem.text().trim().substring(0, 200)`. -/
def candText (e : ElemView) : List Char := (trim (Dom.textOf e.children)).take 200

/-- The record pushed for one element (ctx is the parent's `prop('tagName')`). -/
def candRecord (ctx : Option (List Char)) (e : ElemView) : Candidate :=
  ⟨e.tag, candText e, e.classes, e.id, ctx⟩

/-- The DOM scan of intelligentSelectorDiscovery: every element whose trimmed
text is longer than 10 characters becomes a candidate, in document order;
children see their parent's tag (uppercased, as `prop('tagName')`) as context. -/
def Dom.scan : Option (List Char) → Dom → List Candidate
  | _, .nil => []
  | par, .text _ rest => Dom.scan par rest
  | par, .elem t i c ch rest =>
      (if 10 < (trim (Dom.textOf ch)).length
        then [candRecord par ⟨t, i, c, ch⟩] else [])
      ++ Dom.scan (some (t.map Char.toUpper)) ch
      ++ Dom.scan par rest

/-- Candidates contributed by a single element together with its subtree. -/
def scanElemView (ctx : Option (List Char)) (e : ElemView) : List Candidate :=
  (if 10 < (trim (Dom.textOf e.children)).length
    then [candRecord ctx e] else [])
  ++ Dom.scan (some (e.tag.map Char.toUpper)) e.children

/-- Output of the compromise.js tagger on the page text, as the four boolean
queries the source makes of it. -/
structure NlpDoc where
  money : Bool
  noun : Bool
  email : Bool
  phone : Bool
deriving DecidableEq

/-- userPrompt.toLowerCase().includes(kw), for a lowercase keyword kw. -/
def promptHas (p kw : List Char) : Bool := containsSub kw (p.map Char.toLower)

/-- Alternatives of the regex /(\$|€|£|USD|price|cost)/i, lowercased. -/
def moneyPatterns : List (List Char) :=
  ["$".data, "€".data, "£".data, "usd".data, "price".data, "cost".data]

/-- /(\$|€|£|USD|price|cost)/i.test(text) -/
def moneyTest (t : List Char) : Bool :=
  moneyPatterns.any (fun p => containsSub p (t.map Char.toLower))

/-- TypeErrors the engine can actually raise. -/
inductive Err where
  | undefinedContactSelector : Err
deriving DecidableEq

def optTruthy (o : Option (List Char)) : Option (List Char) :=
  match o with
  | some s => if s.isEmpty then none else some s
  | none => none

/-- `element.classes.split(' ').filter(c => c.length > 2)`, guarded by JS
truthiness of the class attribute. -/
def survivingClasses (o : Option (List Char)) : List (List Char) :=
  match optTruthy o with
  | some s => (s.splitOn ' ').filter (fun c => decide (2 < c.length))
  | none => []

/-- buildSelector: id (if truthy), else first class longer than 2 chars, else tag. -/
def buildSelector (e : Candidate) : List Char :=
  match optTruthy e.id with
  | some i => '#' :: i
  | none =>
      match survivingClasses e.classes with
      | c :: _ => '.' :: c
      | [] => e.tag

def priceFallbackRule : List Char := ".price, .cost, [class*=\"price\"]".data

/-- findBestPriceSelector: first candidate whose text matches the money regex,
else the generic price rule. -/
def findBestPriceSelector (elements : List Candidate) : List Char :=
  match elements.find? (fun e => moneyTest e.text) with
  | some e => buildSelector e
  | none => priceFallbackRule

def titleFallbackRule : List Char := ".title, .name, h1, h2, h3".data

/-- findBestTitleSelector: first h1-h4 candidate with text longer than 10 chars,
else the generic title rule. -/
def findBestTitleSelector (elements : List Candidate) : List Char :=
  match elements.filter (fun e =>
      (["h1".data, "h2".data, "h3".data, "h4".data].contains e.tag)
      && decide (10 < e.text.length)) with
  | e :: _ => buildSelector e
  | [] => titleFallbackRule

def itemRule : List Char := ".product, .item, .card, [class*=\"item\"], li, article".data

/-- `userPrompt.toLowerCase().includes('price') || nlpDoc.has('#Money')` -/
def priceGate (p : List Char) (nlp : NlpDoc) : Bool := promptHas p "price".data || nlp.money

/-- `userPrompt.toLowerCase().includes('product') || nlpDoc.has('#Noun')` -/
def titleGate (p : List Char) (nlp : NlpDoc) : Bool := promptHas p "product".data || nlp.noun

/-- `includes('contact') || match('#Email').found || match('#PhoneNumber').found` -/
def contactGate (p : List Char) (nlp : NlpDoc) : Bool :=
  promptHas p "contact".data || nlp.email || nlp.phone

/-- A field-name-to-selection-rule mapping (a JS object in insertion order). -/
abbrev FieldMap := List (List Char × List Char)

/-- intelligentSelectorDiscovery.  When the contact gate fires, the source calls
`this.findBestContactSelector`, a method that does not exist: the call throws. -/
def intelligentSelectorDiscovery (doc : Dom) (userPrompt : List Char) (nlp : NlpDoc) :
    Except Err FieldMap :=
  let elements := Dom.scan none doc
  let s1 := if priceGate userPrompt nlp
            then [("price".data, findBestPriceSelector elements)] else []
  let s2 := if titleGate userPrompt nlp
            then [("title".data, findBestTitleSelector elements)] else []
  if contactGate userPrompt nlp then
    Except.error Err.undefinedContactSelector
  else
    Except.ok (s1 ++ s2 ++ [("item".data, itemRule)])

/-- `nlpDoc.has('#Money') || /price|cost|€|\$|£/i.test(userPrompt)` -/
def pricesTypeGate (p : List Char) (nlp : NlpDoc) : Bool :=
  nlp.money || ["price".data, "cost".data, "€".data, "$".data, "£".data].any (promptHas p)

/-- `nlpDoc.match('#Email').found || /contact|email/i.test(userPrompt)` -/
def emailsTypeGate (p : List Char) (nlp : NlpDoc) : Bool :=
  nlp.email || ["contact".data, "email".data].any (promptHas p)

/-- `nlpDoc.match('#PhoneNumber').found || /phone|tel|contact/i.test(userPrompt)` -/
def phonesTypeGate (p : List Char) (nlp : NlpDoc) : Bool :=
  nlp.phone || ["phone".data, "tel".data, "contact".data].any (promptHas p)

/-- `nlpDoc.has('#Noun') || /product|item|service/i.test(userPrompt)` -/
def productsTypeGate (p : List Char) (nlp : NlpDoc) : Bool :=
  nlp.noun || ["product".data, "item".data, "service".data].any (promptHas p)

/-- identifyDataTypes: push prices, emails, phones, products in that order,
default to ['text_content']. -/
def identifyDataTypes (p : List Char) (nlp : NlpDoc) : List (List Char) :=
  let types :=
    (if pricesTypeGate p nlp then ["prices".data] else []) ++
    (if emailsTypeGate p nlp then ["emails".data] else []) ++
    (if phonesTypeGate p nlp then ["phones".data] else []) ++
    (if productsTypeGate p nlp then ["products".data] else [])
  if types.isEmpty then ["text_content".data] else types

/-- The structured result of the fallback path. -/
structure InferenceResult where
  selectors : List (List Char × List Char)
  dataTypes : List (List Char)
  confidence : List Char
  source : List Char
deriving DecidableEq

/-- fallbackAnalysis: selectors from the discovery, dataTypes from the gates,
confidence 'medium', source 'fallback'.  The discovery's TypeError propagates. -/
def fallbackAnalysis (doc : Dom) (userPrompt : List Char) (nlp : NlpDoc) :
    Except Err InferenceResult :=
  match intelligentSelectorDiscovery doc userPrompt nlp with
  | .error e => .error e
  | .ok selectors =>
      .ok ⟨selectors, identifyDataTypes userPrompt nlp, "medium".data, "fallback".data⟩

/-- Minimal JSON value model for what JSON.parse can return. -/
inductive Json where
  | null : Json
  | bool : Bool → Json
  | num : Int → Json
  | str : List Char → Json
  | arr : List Json → Json
  | obj : List (List Char × Json) → Json

/-- The span matched by the greedy regex /\x7b[\s\S]*\x7d/: from the first
opening brace to the last closing brace after it, if any. -/
def extractJsonSpan (t : List Char) : Option (List Char) :=
  let fromBrace := t.dropWhile (fun c => !(c == '\x7b'))
  let span := (fromBrace.reverse.dropWhile (fun c => !(c == '\x7d'))).reverse
  if span.isEmpty then none else some span

/-- parseAIResponse: extract the brace span and JSON.parse it; any failure
yields null (returned as `none`). -/
def parseAIResponse (jparse : List Char → Option Json) (aiText : List Char) :
    Option Json :=
  match extractJsonSpan aiText with
  | some span => jparse span
  | none => none

/-- One element of the Hugging Face response array. -/
structure OracleItem where
  generated_text : Option (List Char)

/-- The JS truthiness chain `aiResponse && aiResponse[0] && aiResponse[0].generated_text`. -/
def firstGeneratedText : Option (List OracleItem) → Option (List Char)
  | some (item :: _) =>
      match item.generated_text with
      | some g => if g.isEmpty then none else some g
      | none => none
  | some [] => none
  | none => none

/-- What analyzeContentStructure actually returns in the dynamically typed
source: the raw parsed JSON, JS null, or the fallback's structured result. -/
inductive AnalysisResult where
  | nullResult : AnalysisResult
  | raw : Json → AnalysisResult
  | fallback : InferenceResult → AnalysisResult

def AnalysisResult.isNull : AnalysisResult → Bool
  | .nullResult => true
  | _ => false

def AnalysisResult.isFallback : AnalysisResult → Bool
  | .fallback _ => true
  | _ => false

/-- analyzeContentStructure: if the oracle answered with a truthy generated_text,
the result of parseAIResponse is returned directly (the raw JSON on success,
null on failure); only otherwise does the engine fall back. -/
def analyzeContentStructure (jparse : List Char → Option Json) (doc : Dom)
    (userPrompt : List Char) (aiResponse : Option (List OracleItem)) (nlp : NlpDoc) :
    Except Err AnalysisResult :=
  match firstGeneratedText aiResponse with
  | some g =>
      match parseAIResponse jparse g with
      | some j => .ok (.raw j)
      | none => .ok .nullResult
  | none =>
      match fallbackAnalysis doc userPrompt nlp with
      | .ok r => .ok (.fallback r)
      | .error e => .error e

/-- Simple selectors understood by the rules the engine emits. -/
inductive SimpleSel where
  | idSel : List Char → SimpleSel
  | clsSel : List Char → SimpleSel
  | attrClassSel : List Char → SimpleSel
  | tagSel : List Char → SimpleSel
  | badSel : SimpleSel
deriving DecidableEq

/-- Parse one comma-free selector: #id, .class, [class*="sub"], or a tag name. -/
def parseSimple (p : List Char) : SimpleSel :=
  match p with
  | [] => .badSel
  | '#' :: rest => .idSel rest
  | '.' :: rest => .clsSel rest
  | '[' :: rest =>
      let pref := "class*=\"".data
      if decide (pref <+: rest) then
        let mid := rest.drop pref.length
        if decide ("\"]".data <:+ mid) then .attrClassSel mid.dropLast.dropLast else .badSel
      else .badSel
  | c :: cs => .tagSel (c :: cs)

def matchesSimple (s : SimpleSel) (e : ElemView) : Bool :=
  match s with
  | .idSel i => e.id == some i
  | .clsSel c =>
      match e.classes with
      | some cl => (cl.splitOn ' ').contains c
      | none => false
  | .attrClassSel sub =>
      match e.classes with
      | some cl => containsSub sub cl
      | none => false
  | .tagSel t => e.tag == t
  | .badSel => false

/-- A selection rule is a comma-separated disjunction of simple selectors. -/
def parseRule (rule : List Char) : List SimpleSel :=
  (rule.splitOn ',').map (fun p => parseSimple (trim p))

def matchesRule (rule : List Char) (e : ElemView) : Bool :=
  (parseRule rule).any (fun s => matchesSimple s e)

/-- `$(rule)`: all matching elements of the document, in document order. -/
def queryAll (d : Dom) (rule : List Char) : List ElemView :=
  (Dom.elems d).filter (matchesRule rule)

/-- `$(elem).find(rule)`: matching strict descendants, in document order. -/
def findDesc (e : ElemView) (rule : List Char) : List ElemView :=
  (Dom.elems e.children).filter (matchesRule rule)

/-- `$(elem).find(rule).first().text().trim()`: trimmed text of the first
matching descendant, or the empty string. -/
def previewText (e : ElemView) (rule : List Char) : List Char :=
  match findDesc e rule with
  | f :: _ => trim (Dom.textOf f.children)
  | [] => []

/-- `selectors.item || 'body'` -/
def containerRule (sel : FieldMap) : List Char :=
  match List.lookup "item".data sel with
  | some r => if r.isEmpty then "body".data else r
  | none => "body".data

/-- The record built for one container: every non-item field, in entry order. -/
def previewRecord (sel : FieldMap) (e : ElemView) : List (List Char × List Char) :=
  (sel.filter (fun kv => !(kv.1 == "item".data))).map
    (fun kv => (kv.1, previewText e kv.2))

/-- `Object.values(item).some(val => val)`: some field value is truthy. -/
def previewKeep (r : List (List Char × List Char)) : Bool :=
  r.any (fun kv => !kv.2.isEmpty)

def previewLoop (sel : FieldMap) : List ElemView → List (List (List Char × List Char))
  | [] => []
  | c :: cs =>
      if previewKeep (previewRecord sel c)
      then previewRecord sel c :: previewLoop sel cs
      else previewLoop sel cs

/-- generateDataPreview: iterate the item containers, build a record per
container, keep it when some value is non-empty. -/
def generateDataPreview (d : Dom) (sel : FieldMap) :
    List (List (List Char × List Char)) :=
  previewLoop sel (queryAll d (containerRule sel))

/- Concrete inputs used to instantiate the theorems below. -/

/-- A tagger output reporting nothing at all. -/
def nlpQuiet : NlpDoc := ⟨false, false, false, false⟩

/-- A minimal page: one paragraph of plain prose. -/
def pDoc : Dom :=
  Dom.elem "p".data none none (Dom.text "hello world, plenty of text".data Dom.nil) Dom.nil

/-- The spec's end-to-end fragment `<div id="p1"><h2>Widget</h2><span class="price">$19.99</span></div>`. -/
def widgetBody : Dom :=
  Dom.elem "div".data (some "p1".data) none
    (Dom.elem "h2".data none none (Dom.text "Widget".data Dom.nil)
      (Dom.elem "span".data none (some "price".data)
        (Dom.text "$19.99".data Dom.nil) Dom.nil))
    Dom.nil

/-- The fragment as cheerio.load parses it, wrapped in html/head/body. -/
def widgetDom : Dom := loadFragment widgetBody

def widgetPrompt : List Char := "get me the price and title".data

/-- compromise.js on the page text "Widget$19.99": a money span and a noun,
no email- or phone-shaped span. -/
def nlpWidget : NlpDoc := ⟨true, true, false, false⟩

/-- The selectors the fallback actually produces on the widget document. -/
def widgetSels : FieldMap :=
  [("price".data, "html".data), ("title".data, titleFallbackRule), ("item".data, itemRule)]

/-- 210 filler characters, enough to push a later money mark past the
200-character candidate-text truncation of any ancestor. -/
def filler210 : List Char := List.replicate 210 'a'

def deepChildren : Dom :=
  Dom.text filler210
    (Dom.elem "span".data none none (Dom.text "$5 only today!!".data Dom.nil) Dom.nil)

/-- A document whose root's subtree text exceeds 200 characters before the
money mark appears. -/
def deepDom : Dom := Dom.elem "div".data none none deepChildren Dom.nil

def deepRoot : ElemView := ⟨"div".data, none, none, deepChildren⟩

def deepSpan : ElemView := ⟨"span".data, none, none, Dom.text "$5 only today!!".data Dom.nil⟩

/-- A JSON.parse model that fails on every input (never consulted when the
oracle text has no brace span). -/
def jparseNone : List Char → Option Json := fun _ => none

/-- The JSON span of the oracle reply used to exercise the success path. -/
def c3span : List Char := "\x7b\"price\": \".price\"\x7d".data

def c3json : Json := Json.obj [("price".data, Json.str ".price".data)]

/-- A JSON.parse model that succeeds exactly on `c3span`. -/
def jparseC3 : List Char → Option Json := fun s => if s == c3span then some c3json else none

/-- Candidates for the first-match price scan: prose, then two money texts. -/
def cw1 : Candidate := ⟨"div".data, "hello world stuff".data, none, none, none⟩

def cw2 : Candidate := ⟨"span".data, "it costs $4 now".data, none, some "x2".data, none⟩

def cw3 : Candidate := ⟨"b".data, "only $9 now maybe".data, none, some "x3".data, none⟩

def wChildren : Dom :=
  Dom.elem "span".data none none (Dom.text "$19.99 USD today".data Dom.nil) Dom.nil

/-- A small container/descendant pair where no truncation interferes. -/
def wDom : Dom := Dom.elem "div".data none none wChildren Dom.nil

def wRoot : ElemView := ⟨"div".data, none, none, wChildren⟩

def wSpan : ElemView := ⟨"span".data, none, none, Dom.text "$19.99 USD today".data Dom.nil⟩

/- Infrastructure lemmas. -/

theorem containsSub_iff (p t : List Char) : containsSub p t = true ↔ p <:+: t := by
  unfold containsSub
  exact decide_eq_true_iff

theorem trim_sub (l : List Char) : trim l <:+: l := by
  unfold trim
  have h1 : l.dropWhile isWs <:+ l := List.dropWhile_suffix isWs
  have h2 : (l.dropWhile isWs).reverse.dropWhile isWs <:+ (l.dropWhile isWs).reverse :=
    List.dropWhile_suffix isWs
  have h3 : ((l.dropWhile isWs).reverse.dropWhile isWs).reverse <+: l.dropWhile isWs := by
    rw [← List.reverse_suffix]
    simpa using h2
  exact ( List.IsPrefix.isInfix h3).trans ( List.IsSuffix.isInfix h1)

theorem drop_keep_sub (p : Char → Bool) (q : List Char) (hq : q ≠ [])
    (hqp : ∀ c ∈ q, p c = false) :
    ∀ l : List Char, q <:+: l → q <:+: l.dropWhile p := by
  intro l
  induction l with
  | nil => intro h; simpa using h
  | cons a l ih =>
      intro h
      rw [List.dropWhile_cons]
      by_cases ha : p a = true
      · rw [if_pos ha]
        apply ih
        rcases List.infix_cons_iff.mp h with hpre | hinf
        · exfalso
          obtain ⟨t, ht⟩ := hpre
          cases q with
          | nil => exact hq rfl
          | cons qh qt =>
              have hha : qh = a := by
                have := congrArg (fun l => l.head?) ht
                simpa using this
              have hf := hqp qh (List.mem_cons_self qh qt)
              rw [hha, ha] at hf
              simp at hf
        · exact hinf
      · rw [if_neg ha]
        exact h

theorem trim_keep_sub (q l : List Char) (hq : q ≠ [])
    (hqw : ∀ c ∈ q, isWs c = false) (h : q <:+: l) : q <:+: trim l := by
  unfold trim
  have h1 : q <:+: l.dropWhile isWs := drop_keep_sub isWs q hq hqw l h
  have h2 : q.reverse <:+: (l.dropWhile isWs).reverse := by
    rw [ List.reverse_infix]
    exact h1
  have hq' : q.reverse ≠ [] := by simpa using hq
  have hqw' : ∀ c ∈ q.reverse, isWs c = false := by
    intro c hc
    exact hqw c (List.mem_reverse.mp hc)
  have h3 : q.reverse <:+: ((l.dropWhile isWs).reverse).dropWhile isWs :=
    drop_keep_sub isWs q.reverse hq' hqw' _ h2
  rw [← List.reverse_infix]
  simpa using h3

theorem sub_map_pullback (f : Char → Char) (l L : List Char) (h : l <:+: L.map f) :
    ∃ q, q <:+: L ∧ l = q.map f := by
  obtain ⟨s, t, hst⟩ := h
  have hst' : L.map f = s ++ (l ++ t) := by
    rw [← hst, List.append_assoc]
  obtain ⟨s', rest, hL, _, hrest⟩ := List.map_eq_append_iff.mp hst'
  obtain ⟨q, t', hrest2, hq, _⟩ := List.map_eq_append_iff.mp hrest
  refine ⟨q, ⟨s', t', ?_⟩, hq.symm⟩
  rw [hL, hrest2, List.append_assoc]

theorem ws_toLower (c : Char) (h : isWs c = true) : Char.toLower c = c := by
  unfold isWs at h
  simp only [Bool.or_eq_true, beq_iff_eq] at h
  rcases h with ((rfl | rfl) | rfl) | rfl <;> decide

theorem textOf_sub_of_mem : ∀ (d : Dom) (e : ElemView), e ∈ Dom.elems d →
    Dom.textOf e.children <:+: Dom.textOf d := by
  intro d
  induction d with
  | nil => intro e he; simp [Dom.elems] at he
  | text s rest ih =>
      intro e he
      rw [Dom.elems] at he
      rw [Dom.textOf]
      exact (ih e he).trans ( List.IsSuffix.isInfix (List.suffix_append s (Dom.textOf rest)))
  | elem t i c ch rest ihc ihr =>
      intro e he
      rw [Dom.elems] at he
      rw [Dom.textOf]
      rcases List.mem_cons.mp he with rfl | hmem
      · exact List.IsPrefix.isInfix (List.prefix_append _ _)
      · rcases List.mem_append.mp hmem with h1 | h2
        · exact (ihc e h1).trans ( List.IsPrefix.isInfix (List.prefix_append _ _))
        · exact (ihr e h2).trans ( List.IsSuffix.isInfix (List.suffix_append _ _))

theorem scan_decomp : ∀ (d : Dom) (par : Option (List Char)) (e : ElemView),
    e ∈ Dom.elems d →
    ∃ ctx X Y, Dom.scan par d = X ++ scanElemView ctx e ++ Y := by
  intro d
  induction d with
  | nil => intro par e he; simp [Dom.elems] at he
  | text s rest ih =>
      intro par e he
      rw [Dom.elems] at he
      obtain ⟨ctx, X, Y, h⟩ := ih par e he
      exact ⟨ctx, X, Y, by rw [Dom.scan]; exact h⟩
  | elem t i c ch rest ihc ihr =>
      intro par e he
      rw [Dom.elems] at he
      rcases List.mem_cons.mp he with rfl | hmem
      · refine ⟨par, [], Dom.scan par rest, ?_⟩
        rw [Dom.scan]
        simp [scanElemView, List.append_assoc]
      · rcases List.mem_append.mp hmem with h1 | h2
        · obtain ⟨ctx, X, Y, h⟩ := ihc (some (t.map Char.toUpper)) e h1
          refine ⟨ctx, (if 10 < (trim (Dom.textOf ch)).length
              then [candRecord par ⟨t, i, c, ch⟩] else []) ++ X,
              Y ++ Dom.scan par rest, ?_⟩
          rw [Dom.scan, h]
          simp [List.append_assoc]
        · obtain ⟨ctx, X, Y, h⟩ := ihr par e h2
          refine ⟨ctx, (if 10 < (trim (Dom.textOf ch)).length
              then [candRecord par ⟨t, i, c, ch⟩] else [])
              ++ Dom.scan (some (t.map Char.toUpper)) ch ++ X, Y, ?_⟩
          rw [Dom.scan, h]
          simp [List.append_assoc]

theorem mem_previewLoop (sel : FieldMap) (r : List (List Char × List Char)) :
    ∀ cs : List ElemView, (r ∈ previewLoop sel cs ↔
      ∃ c ∈ cs, r = previewRecord sel c ∧ previewKeep r = true) := by
  intro cs
  induction cs with
  | nil => simp [previewLoop]
  | cons c cs ih =>
      by_cases h : previewKeep (previewRecord sel c) = true
      · rw [previewLoop, if_pos h]
        constructor
        · intro hr
          rcases List.mem_cons.mp hr with rfl | hr2
          · exact ⟨c, List.mem_cons_self c cs, rfl, h⟩
          · obtain ⟨c', hc', hr', hk⟩ := ih.mp hr2
            exact ⟨c', List.mem_cons_of_mem c hc', hr', hk⟩
        · rintro ⟨c', hc', rfl, hk⟩
          rcases List.mem_cons.mp hc' with rfl | hc2
          · exact List.mem_cons_self _ _
          · exact List.mem_cons_of_mem _ (ih.mpr ⟨c', hc2, rfl, hk⟩)
      · rw [previewLoop, if_neg h]
        constructor
        · intro hr
          obtain ⟨c', hc', hr', hk⟩ := ih.mp hr
          exact ⟨c', List.mem_cons_of_mem c hc', hr', hk⟩
        · rintro ⟨c', hc', rfl, hk⟩
          rcases List.mem_cons.mp hc' with rfl | hc2
          · exact absurd hk h
          · exact ih.mpr ⟨c', hc2, rfl, hk⟩

theorem lookup_contact_none (a b : Bool) (v1 v2 : List Char) :
    List.lookup "contact".data
      ((if a then [("price".data, v1)] else []) ++
       (if b then [("title".data, v2)] else []) ++
       [("item".data, itemRule)]) = none := by
  cases a <;> cases b <;> rfl

/-- C1: the claim says the Fallback Classifier never fails, in particular that
it completes when the contact gate fires.  The source calls the undefined
method `findBestContactSelector` on that path, so on the concrete page `pDoc`
with prompt "contact" (and a tagger reporting nothing) fallbackAnalysis throws
instead of returning an InferenceResult. -/
theorem c1_contact_gate_throws :
    fallbackAnalysis pDoc "contact".data nlpQuiet =
      Except.error Err.undefinedContactSelector := by
  rfl

/-- C2: the claim says that a parseable-JSON-free oracle reply degrades to the
fallback result.  In the source, analyzeContentStructure returns the value of
parseAIResponse directly, which is JS null, both when the generated text has
no brace span and when JSON.parse rejects the span; the fallback never runs. -/
theorem c2_unparseable_returns_null :
    analyzeContentStructure jparseNone pDoc "get prices".data
        (some [⟨some "Sure, try these selectors".data⟩]) nlpQuiet =
      Except.ok AnalysisResult.nullResult ∧
    analyzeContentStructure jparseNone pDoc "get prices".data
        (some [⟨some "Try \x7b bad json \x7d maybe".data⟩]) nlpQuiet =
      Except.ok AnalysisResult.nullResult := by
  exact ⟨rfl, rfl⟩

/-- C3: the claim says a parseable FieldMap-shaped oracle reply is wrapped as
an InferenceResult with source "ai".  In the source, the raw parsed JSON object
is returned unwrapped: no selectors field, no source tag at all. -/
theorem c3_raw_json_not_wrapped :
    analyzeContentStructure jparseC3 pDoc "get prices".data
        (some [⟨some ("Here are the selectors: ".data ++ c3span)⟩]) nlpQuiet =
      Except.ok (AnalysisResult.raw c3json) ∧
    (AnalysisResult.raw c3json).isFallback = false ∧
    (AnalysisResult.raw c3json).isNull = false := by
  exact ⟨rfl, rfl, rfl⟩

/-- C4 counterexample: for class attribute "a bb ccc" the filter keeps only
classes of length strictly greater than 2, so "bb" is dropped along with "a"
and the output is ".ccc", not ".bb" as the claim states. -/
theorem c4_counterexample :
    buildSelector ⟨"div".data, [], some "a bb ccc".data, none, none⟩ = ".ccc".data ∧
    ".ccc".data ≠ ".bb".data := by
  exact ⟨rfl, by decide⟩

/-- C4 amended: a non-empty id yields "#" ++ id; with no (truthy) id and class
attribute "a bb ccc" the output is ".ccc" (first class of length > 2, both "a"
and "bb" being filtered); with no truthy id and no surviving class the output
is the bare tag name. -/
theorem c4_amended (e : Candidate) :
    (∀ i, optTruthy e.id = some i → buildSelector e = '#' :: i) ∧
    (optTruthy e.id = none → e.classes = some "a bb ccc".data →
        buildSelector e = ".ccc".data) ∧
    (optTruthy e.id = none → survivingClasses e.classes = [] →
        buildSelector e = e.tag) := by
  refine ⟨?_, ?_, ?_⟩
  · intro i hi
    unfold buildSelector
    rw [hi]
  · intro hid hcls
    unfold buildSelector
    rw [hid]
    unfold survivingClasses
    rw [hcls]
    rfl
  · intro hid hcls
    unfold buildSelector
    rw [hid, hcls]

/-- C4 witness: the amended theorem applied to a concrete candidate. -/
theorem c4_witness :
    buildSelector ⟨"p".data, [], some "a bb ccc".data, none, none⟩ = ".ccc".data :=
  (c4_amended ⟨"p".data, [], some "a bb ccc".data, none, none⟩).2.1 rfl rfl

/-- C5 counterexample: on the widget document with prompt "get me the price and
title" the fallback's price selector is "html" (neither "#p1" nor ".price"),
the title selector is the generic rule (not "h2"), and the preview is empty
rather than one record. -/
theorem c5_counterexample :
    ∃ r, fallbackAnalysis widgetDom widgetPrompt nlpWidget = Except.ok r ∧
      List.lookup "price".data r.selectors = some "html".data ∧
      "html".data ≠ "#p1".data ∧ "html".data ≠ ".price".data ∧
      List.lookup "title".data r.selectors = some titleFallbackRule ∧
      titleFallbackRule ≠ "h2".data ∧
      generateDataPreview widgetDom r.selectors = [] := by
  refine ⟨⟨widgetSels, ["prices".data, "products".data], "medium".data, "fallback".data⟩,
    rfl, rfl, by decide, by decide, rfl, by decide, rfl⟩

/-- C5 amended: end-to-end on the widget document, the fallback yields price
"html" (the first candidate in document order whose truncated subtree text
contains a money mark is the html wrapper element), the generic title rule
(the h2 text "Widget" is at most 10 characters, so no heading candidate
exists), the generic item rule, dataTypes ["prices", "products"], and an empty
preview (no element matches the generic item container rule). -/
theorem c5_amended :
    fallbackAnalysis widgetDom widgetPrompt nlpWidget =
      Except.ok ⟨widgetSels, ["prices".data, "products".data],
        "medium".data, "fallback".data⟩ ∧
    generateDataPreview widgetDom widgetSels = [] := by
  exact ⟨rfl, rfl⟩

/-- C6: the price selector is the Selector Synthesizer output of the first
candidate, in list order, whose text matches the money pattern; if no
candidate matches it is exactly the generic price rule; later candidates are
never preferred. -/
theorem c6_first_money_candidate (elements : List Candidate) :
    ((∀ x ∈ elements, moneyTest x.text = false) →
        findBestPriceSelector elements = priceFallbackRule) ∧
    (∀ pre e post, elements = pre ++ e :: post →
        (∀ x ∈ pre, moneyTest x.text = false) →
        moneyTest e.text = true →
        findBestPriceSelector elements = buildSelector e) := by
  constructor
  · intro h
    have hf : elements.find? (fun e => moneyTest e.text) = none := by
      rw [List.find?_eq_none]
      intro x hx
      simp [h x hx]
    unfold findBestPriceSelector
    rw [hf]
  · intro pre e post hsplit hpre he
    subst hsplit
    have hf : (pre ++ e :: post).find? (fun c => moneyTest c.text) = some e := by
      rw [List.find?_append]
      have hn : pre.find? (fun c => moneyTest c.text) = none := by
        rw [List.find?_eq_none]
        intro x hx
        simp [hpre x hx]
      rw [hn]
      simp [he]
    unfold findBestPriceSelector
    rw [hf]

/-- C6 witness: on a list with a non-matching first candidate and two matching
ones, the scan returns the selector of the earlier match cw2. -/
theorem c6_witness :
    findBestPriceSelector [cw1, cw2, cw3] = buildSelector cw2 :=
  (c6_first_money_candidate [cw1, cw2, cw3]).2 [cw1] cw2 [cw3] rfl
    (by decide) (by decide)

/-- C7 counterexample: the claim says the prompt keyword "email" suffices to
populate selectors.contact.  On a page with no email or phone span, the prompt
"email please" does not fire the source's contact gate (which only checks the
prompt for "contact"), and the returned selectors have no contact key. -/
theorem c7_counterexample :
    intelligentSelectorDiscovery (loadFragment Dom.nil) "email please".data nlpQuiet =
      Except.ok [("item".data, itemRule)] ∧
    List.lookup "contact".data [("item".data, itemRule)] = none := by
  exact ⟨rfl, rfl⟩

/-- C7 amended: the contact branch is taken iff the lowercased prompt contains
"contact" or the tagger finds an email- or phone-shaped span in the page text
(prompt keywords "email", "phone", "tel" alone do not fire the gate); when it
is taken the discovery fails with the undefined-method error instead of
populating selectors.contact; when it is not taken the selectors contain no
contact key. -/
theorem c7_amended (doc : Dom) (p : List Char) (nlp : NlpDoc) :
    (contactGate p nlp = true →
       intelligentSelectorDiscovery doc p nlp =
         Except.error Err.undefinedContactSelector) ∧
    (contactGate p nlp = false →
       ∃ sels, intelligentSelectorDiscovery doc p nlp = Except.ok sels ∧
         List.lookup "contact".data sels = none) := by
  constructor
  · intro h
    unfold intelligentSelectorDiscovery
    rw [h]
    rfl
  · intro h
    unfold intelligentSelectorDiscovery
    rw [h]
    refine ⟨_, rfl, ?_⟩
    exact lookup_contact_none (priceGate p nlp) (titleGate p nlp) _ _

/-- C7 witness: the amended theorem applied with the prompt "contact", where
the gate fires and the discovery throws. -/
theorem c7_witness :
    intelligentSelectorDiscovery (loadFragment Dom.nil) "contact".data nlpQuiet =
      Except.error Err.undefinedContactSelector :=
  (c7_amended (loadFragment Dom.nil) "contact".data nlpQuiet).1 (by decide)

/-- C8: a record appears in the preview iff it is the record of some matched
container and at least one of its non-item field values is non-empty; a record
is kept iff some field value is a non-empty string; an item rule matching zero
elements yields the empty sequence; "body" is the container rule when "item" is
absent; and each field value is the trimmed text of the first descendant
matching that field's rule, the empty string when none matches. -/
theorem c8_preview (d : Dom) (sel : FieldMap) :
    (∀ r, r ∈ generateDataPreview d sel ↔
       ∃ c ∈ queryAll d (containerRule sel),
         r = previewRecord sel c ∧ previewKeep r = true) ∧
    (∀ r : List (List Char × List Char),
       previewKeep r = true ↔ ∃ kv ∈ r, kv.2 ≠ []) ∧
    (queryAll d (containerRule sel) = [] → generateDataPreview d sel = []) ∧
    (List.lookup "item".data sel = none → containerRule sel = "body".data) ∧
    (∀ c k rule, (k, rule) ∈ sel → k ≠ "item".data →
       (k, previewText c rule) ∈ previewRecord sel c) ∧
    (∀ c rule f fs, findDesc c rule = f :: fs →
       previewText c rule = trim (Dom.textOf f.children)) ∧
    (∀ c rule, findDesc c rule = [] → previewText c rule = []) := by
  refine ⟨?_, ?_, ?_, ?_, ?_, ?_, ?_⟩
  · intro r
    unfold generateDataPreview
    exact mem_previewLoop sel r (queryAll d (containerRule sel))
  · intro r
    unfold previewKeep
    rw [List.any_eq_true]
    constructor
    · rintro ⟨kv, hkv, hne⟩
      refine ⟨kv, hkv, ?_⟩
      intro hnil
      rw [hnil] at hne
      simp at hne
    · rintro ⟨kv, hkv, hne⟩
      refine ⟨kv, hkv, ?_⟩
      simpa [List.isEmpty_iff] using hne
  · intro h
    unfold generateDataPreview
    rw [h]
    rfl
  · intro h
    unfold containerRule
    rw [h]
  · intro c k rule hmem hk
    unfold previewRecord
    refine List.mem_map_of_mem _ (List.mem_filter.mpr ⟨hmem, ?_⟩)
    simpa using hk
  · intro c rule f fs h
    unfold previewText
    rw [h]
  · intro c rule h
    unfold previewText
    rw [h]

/-- C8 witness: the amended clauses applied at concrete inputs: a field map
without an item key gets the body container rule. -/
theorem c8_witness :
    containerRule [("price".data, ".p".data)] = "body".data :=
  (c8_preview Dom.nil [("price".data, ".p".data)]).2.2.2.1 rfl

/-- C9: the data-type inventory is non-empty, contains each tag exactly when
its keyword/pattern gate fires, is ordered as a sublist of the fixed order
prices, emails, phones, products, text_content, and is exactly ["text_content"]
when no gate fires. -/
theorem c9_dataTypes (p : List Char) (nlp : NlpDoc) :
    identifyDataTypes p nlp ≠ [] ∧
    ("prices".data ∈ identifyDataTypes p nlp ↔ pricesTypeGate p nlp = true) ∧
    ("emails".data ∈ identifyDataTypes p nlp ↔ emailsTypeGate p nlp = true) ∧
    ("phones".data ∈ identifyDataTypes p nlp ↔ phonesTypeGate p nlp = true) ∧
    ("products".data ∈ identifyDataTypes p nlp ↔ productsTypeGate p nlp = true) ∧
    (pricesTypeGate p nlp = false → emailsTypeGate p nlp = false →
       phonesTypeGate p nlp = false → productsTypeGate p nlp = false →
       identifyDataTypes p nlp = ["text_content".data]) ∧
    List.Sublist (identifyDataTypes p nlp)
      ["prices".data, "emails".data, "phones".data, "products".data,
       "text_content".data] := by
  cases h1 : pricesTypeGate p nlp <;> cases h2 : emailsTypeGate p nlp <;>
    cases h3 : phonesTypeGate p nlp <;> cases h4 : productsTypeGate p nlp <;>
    simp only [identifyDataTypes, h1, h2, h3, h4, if_true, if_false] <;>
    refine ⟨by decide, by decide, by decide, by decide, by decide, ?_, by decide⟩ <;>
    simp

/-- C9 witness: with a silent tagger and a prompt firing no keyword gate, the
inventory is exactly ["text_content"]. -/
theorem c9_witness :
    identifyDataTypes "zzz".data nlpQuiet = ["text_content".data] :=
  (c9_dataTypes "zzz".data nlpQuiet).2.2.2.2.2.1 (by decide) (by decide)
    (by decide) (by decide)

set_option maxRecDepth 100000 in
/-- C10 counterexample: in deepDom a descendant span's candidate text matches
the money pattern and the root's subtree text is longer than 10 characters,
yet the root candidate does not match (its 200-character truncation cuts the
money mark off), and the first-match price scan returns the innermost "span",
not a container. -/
theorem c10_counterexample :
    moneyTest (candText deepSpan) = true ∧
    deepSpan ∈ Dom.elems deepChildren ∧
    deepRoot ∈ Dom.elems deepDom ∧
    10 < (trim (Dom.textOf deepRoot.children)).length ∧
    moneyTest (candText deepRoot) = false ∧
    Dom.scan none deepDom =
      [candRecord none deepRoot, candRecord (some "DIV".data) deepSpan] ∧
    findBestPriceSelector (Dom.scan none deepDom) = "span".data := by
  exact ⟨rfl, by decide, by decide, by decide, rfl, rfl, rfl⟩

/-- C10 amended: each candidate's text is the trimmed subtree text truncated to
200 characters and candidates are emitted ancestors-first; whenever a
descendant's candidate text matches the money pattern, every ancestor whose
trimmed subtree text is longer than 10 and at most 200 characters (so that
truncation cannot cut the match away) is itself an earlier candidate that also
matches, so the first-match scans prefer such a container over the inner
element. -/
theorem c10_amended (d : Dom) (a m : ElemView)
    (ha : a ∈ Dom.elems d) (hm : m ∈ Dom.elems a.children)
    (ha10 : 10 < (trim (Dom.textOf a.children)).length)
    (ha200 : (trim (Dom.textOf a.children)).length ≤ 200)
    (hm10 : 10 < (trim (Dom.textOf m.children)).length)
    (hmoney : moneyTest (candText m) = true) :
    moneyTest (candText a) = true ∧
    ∃ ctxa ctxm X mid Y,
      Dom.scan none d =
        X ++ candRecord ctxa a :: (mid ++ candRecord ctxm m :: Y) := by
  have hpat_ne : ∀ p ∈ moneyPatterns, p ≠ [] := by decide
  have hpat_ws : ∀ p ∈ moneyPatterns, ∀ c ∈ p, isWs c = false := by decide
  have hmA : moneyTest (candText a) = true := by
    unfold moneyTest at hmoney ⊢
    rw [List.any_eq_true] at hmoney ⊢
    obtain ⟨p0, hp0mem, hp0⟩ := hmoney
    refine ⟨p0, hp0mem, ?_⟩
    rw [containsSub_iff] at hp0 ⊢
    obtain ⟨q0, hq0sub, rfl⟩ := sub_map_pullback Char.toLower p0 (candText m) hp0
    have hq0ne : q0 ≠ [] := by
      intro hnil
      subst hnil
      exact hpat_ne _ hp0mem rfl
    have hq0ws : ∀ c ∈ q0, isWs c = false := by
      intro c hc
      by_contra hcw
      rw [Bool.not_eq_false] at hcw
      have h1 : Char.toLower c ∈ q0.map Char.toLower := List.mem_map_of_mem _ hc
      have h2 := hpat_ws _ hp0mem _ h1
      rw [ws_toLower c hcw] at h2
      rw [h2] at hcw
      simp at hcw
    have s1 : q0 <:+: trim (Dom.textOf m.children) :=
      hq0sub.trans ( List.IsPrefix.isInfix (List.take_prefix 200 _))
    have s2 : q0 <:+: Dom.textOf m.children := s1.trans (trim_sub _)
    have s3 : q0 <:+: Dom.textOf a.children :=
      s2.trans (textOf_sub_of_mem a.children m hm)
    have s4 : q0 <:+: trim (Dom.textOf a.children) :=
      trim_keep_sub q0 _ hq0ne hq0ws s3
    have s5 : candText a = trim (Dom.textOf a.children) := by
      unfold candText
      exact List.take_of_length_le ha200
    rw [s5]
    exact List.IsInfix.map Char.toLower s4
  refine ⟨hmA, ?_⟩
  obtain ⟨ctxa, X, Y, hX⟩ := scan_decomp d none a ha
  obtain ⟨ctxm, X2, Y2, hX2⟩ :=
    scan_decomp a.children (some (a.tag.map Char.toUpper)) m hm
  have ea : scanElemView ctxa a =
      candRecord ctxa a :: Dom.scan (some (a.tag.map Char.toUpper)) a.children := by
    unfold scanElemView
    rw [if_pos ha10]
    rfl
  have em : scanElemView ctxm m =
      candRecord ctxm m :: Dom.scan (some (m.tag.map Char.toUpper)) m.children := by
    unfold scanElemView
    rw [if_pos hm10]
    rfl
  refine ⟨ctxa, ctxm, X, X2,
    Dom.scan (some (m.tag.map Char.toUpper)) m.children ++ Y2 ++ Y, ?_⟩
  rw [hX, ea, hX2, em]
  simp [List.append_assoc]

/-- C10 witness: the amended theorem applied to a small container/descendant
pair where the container's trimmed text is within the truncation bound. -/
theorem c10_witness :
    moneyTest (candText wRoot) = true ∧
    ∃ ctxa ctxm X mid Y,
      Dom.scan none wDom =
        X ++ candRecord ctxa wRoot :: (mid ++ candRecord ctxm wSpan :: Y) :=
  c10_amended wDom wRoot wSpan (by decide) (by decide) (by decide) (by decide)
    (by decide) (by decide)

end Scrape
